import Mathlib

/-!
Verification development for the stock-price RSS generator
(`src/generate_rss.py`).

The Python program is shallowly embedded as executable Lean definitions:

* Datetimes are abstracted as `Nat` instants (seconds).  The library
  functions `email.utils.format_datetime`, `datetime.strftime` and
  `email.utils.parsedate_to_datetime` are modelled by an injective,
  order-preserving decimal rendering `natToDecimal` and its partial
  inverse `decimalToNat?`, which returns `none` on any string that is
  not a rendered instant (mirroring `parsedate_to_datetime` raising on
  unparseable input).  `datetime.min` is modelled by the sentinel `-1`,
  strictly below every rendered instant.
* Floating-point prices are abstracted as `Int`; the claims under
  study depend only on sign tests and equality, never on fractional
  values, and fractional digit rendering is abstracted accordingly.
* The persisted XML feed is modelled by `XmlNode` trees;
  `xml.etree.ElementTree.parse` raising on a syntactically malformed
  document is modelled by the `FeedFile.malformed` constructor.
* Python `dict` insertion-order semantics (replace in place on an
  existing key, append on a fresh key) are modelled by `dictInsert`
  over association lists.
* Python's `sorted` (a stable sort) is modelled by
  `List.insertionSort`, which is also stable; both therefore compute
  the unique stable sort of their input for the given total preorder.
* Exceptions escaping `main` are modelled by `Except.error`.
-/

namespace StockRss

/-- Decimal digit to its character, used by the datetime rendering model. -/
def digitChar (d : Nat) : Char := Char.ofNat (48 + min d 9)

/-- Character back to a decimal digit; `none` on a non-digit character. -/
def charDigit? (c : Char) : Option Nat :=
  if 48 ≤ c.toNat && c.toNat ≤ 57 then some (c.toNat - 48) else none

/-- Little-endian decimal digits of `n`, with explicit fuel so the kernel
can evaluate it. -/
def natToRevDigitsAux : Nat → Nat → List Nat
  | 0, _ => []
  | fuel + 1, n => if n = 0 then [] else n % 10 :: natToRevDigitsAux fuel (n / 10)

/-- Little-endian decimal digits of `n` (`[]` for `0`). -/
def natToRevDigits (n : Nat) : List Nat := natToRevDigitsAux (n + 1) n

/-- Value of a little-endian decimal digit list. -/
def valRevDigits : List Nat → Nat
  | [] => 0
  | d :: ds => d + 10 * valRevDigits ds

/-- Decimal rendering of a natural number. -/
def natToDecimal (n : Nat) : String :=
  if n = 0 then "0" else String.mk ((natToRevDigits n).reverse.map digitChar)

/-- Parse a list of characters as decimal digits; `none` on any non-digit. -/
def charsToDigits? : List Char → Option (List Nat)
  | [] => some []
  | c :: cs =>
    match charDigit? c, charsToDigits? cs with
    | some d, some ds => some (d :: ds)
    | _, _ => none

/-- Parse a decimal string; `none` when empty or containing a non-digit. -/
def decimalToNat? (s : String) : Option Nat :=
  match charsToDigits? s.data with
  | none => none
  | some [] => none
  | some ds => some (valRevDigits ds.reverse)

/-- Models `email.utils.format_datetime`: renders the abstract instant. -/
def format_datetime (n : Nat) : String := natToDecimal n

/-- Models `now_utc.strftime` with a second-resolution format: renders the
abstract instant (injective per second, like the real format). -/
def strftime_seconds (n : Nat) : String := natToDecimal n

/-- Models `email.utils.parsedate_to_datetime`: recovers the instant from a
rendered timestamp, failing (the real function raises) on anything else. -/
def parsedate_to_datetime (s : String) : Option Nat := decimalToNat? s

/-- Models Python `s.startswith(p)`. -/
def startswith (s p : String) : Bool := p.data.isPrefixOf s.data

/-- ASCII whitespace test backing the model of Python `str.strip`. -/
def isSpaceChar (c : Char) : Bool :=
  c = ' ' || c = '\t' || c = '\n' || c = '\r'

/-- Models Python `s.strip()`: removes leading and trailing whitespace. -/
def pyStrip (s : String) : String :=
  String.mk (((s.data.dropWhile isSpaceChar).reverse.dropWhile isSpaceChar).reverse)

/-- Models Python `s.rstrip(c)` for a single character. -/
def pyRstrip (s : String) (c : Char) : String :=
  String.mk ((s.data.reverse.dropWhile (fun x => x = c)).reverse)

/-- Lexicographic strict order on character lists by code point, the order
Python uses to compare strings. -/
def lexLtChars : List Char → List Char → Bool
  | [], [] => false
  | [], _ :: _ => true
  | _ :: _, [] => false
  | a :: as, b :: bs =>
    if a.toNat < b.toNat then true
    else if b.toNat < a.toNat then false
    else lexLtChars as bs

/-- Models Python `a < b` on strings. -/
def pyStrLt (a b : String) : Bool := lexLtChars a.data b.data

/-- Models Python `a <= b` on strings. -/
def pyStrLe (a b : String) : Bool := !pyStrLt b a

/-- Models one step of Python `max` over strings: keep the current value
unless the new one is strictly greater. -/
def pyMaxStr (a b : String) : String := if pyStrLt a b then b else a

/-- `StockConfig` from `generate_rss.py`. -/
structure StockConfig where
  name : String
  symbol : String
deriving DecidableEq

/-- `FeedItem` from `generate_rss.py`. -/
structure FeedItem where
  guid : String
  title : String
  description : String
  pub_date : String
  link : String
deriving DecidableEq

/-- `StockSnapshot` from `generate_rss.py` (prices abstracted as `Int`). -/
structure StockSnapshot where
  name : String
  symbol : String
  trade_date : String
  open_price : Int
  close_price : Int
  high_price : Int
  low_price : Int
  volume : Int
  change_pct : Int
deriving DecidableEq

/-- An XML element: tag, optional text content, child elements.  Models the
trees produced by `xml.etree.ElementTree` for the persisted feed. -/
inductive XmlNode where
  | mk (tag : String) (textContent : Option String) (children : List XmlNode)

/-- Tag of an element. -/
def XmlNode.tag : XmlNode → String
  | .mk t _ _ => t

/-- Text content of an element (`None` in Python when absent). -/
def XmlNode.textContent : XmlNode → Option String
  | .mk _ x _ => x

/-- Direct children of an element. -/
def XmlNode.children : XmlNode → List XmlNode
  | .mk _ _ c => c

/-- Models `element.find(t)`: first direct child with the given tag. -/
def findChild (e : XmlNode) (t : String) : Option XmlNode :=
  e.children.find? (fun c => decide (c.tag = t))

/-- Models `element.findtext(t)`: text of the first matching child, `""`
when that child has no text, `none` (the Python default) when absent. -/
def findtext (e : XmlNode) (t : String) : Option String :=
  match findChild e t with
  | none => none
  | some c => some (c.textContent.getD "")

/-- State of the persisted feed file as seen by `parse_existing_items`:
absent, present but not well-formed XML (`ET.parse` raises), or a
well-formed document with the given root element. -/
inductive FeedFile where
  | missing
  | malformed
  | wellFormed (root : XmlNode)

/-- Models `d[k] = v` on a Python `dict` kept as an insertion-ordered
association list: replace in place when the key exists, append otherwise. -/
def dictInsert (m : List (String × FeedItem)) (k : String) (v : FeedItem) :
    List (String × FeedItem) :=
  if m.any (fun p => decide (p.1 = k)) then
    m.map (fun p => if p.1 = k then (k, v) else p)
  else m ++ [(k, v)]

/-- The `FeedItem` that `parse_existing_items` builds from one `<item>`
element, given its already-stripped non-empty guid. -/
def item_of_xml (guid : String) (item : XmlNode) : FeedItem :=
  { guid := guid
    title := (findtext item "title").getD ""
    description := (findtext item "description").getD ""
    pub_date := (findtext item "pubDate").getD ""
    link := (findtext item "link").getD "" }

/-- Loop body of `parse_existing_items`: strip the guid, skip the item when
it is empty, otherwise store the rebuilt entry at that guid. -/
def parse_item_step (out : List (String × FeedItem)) (item : XmlNode) :
    List (String × FeedItem) :=
  let guid := pyStrip ((findtext item "guid").getD "")
  if guid = "" then out
  else dictInsert out guid (item_of_xml guid item)

/-- `parse_existing_items` from `generate_rss.py`.  A missing file and a
well-formed document without a `channel` child give an empty mapping; a
malformed document propagates the `ET.parse` exception (`Except.error`);
items whose stripped guid is empty are skipped. -/
def parse_existing_items (f : FeedFile) : Except Unit (List (String × FeedItem)) :=
  match f with
  | .missing => .ok []
  | .malformed => .error ()
  | .wellFormed root =>
    match findChild root "channel" with
    | none => .ok []
    | some channel =>
      .ok ((channel.children.filter (fun c => decide (c.tag = "item"))).foldl
        parse_item_step [])

/-- `max(s.trade_date for s in snapshots)` from `build_summary_item`
(`""` is strictly below every date string, so the fold computes the
maximum of a non-empty list). -/
def max_trade_date (snapshots : List StockSnapshot) : String :=
  (snapshots.map (fun s => s.trade_date)).foldl pyMaxStr ""

/-- `up_count` from `build_summary_item`: snapshots with `change_pct >= 0`. -/
def up_count (snapshots : List StockSnapshot) : Nat :=
  snapshots.countP (fun s => decide (0 ≤ s.change_pct))

/-- `down_count` from `build_summary_item`: the remaining snapshots. -/
def down_count (snapshots : List StockSnapshot) : Nat :=
  snapshots.length - up_count snapshots

/-- Rendering of an abstract integer amount in decimal. -/
def intToDecimal (v : Int) : String :=
  if v < 0 then "-" ++ natToDecimal v.natAbs else natToDecimal v.natAbs

/-- `format_price` from `generate_rss.py` (two-decimal rendering of the
abstracted price). -/
def format_price (v : Int) : String := intToDecimal v

/-- The `"{:+.2f}%"` rendering of a change percentage. -/
def format_signed_pct (v : Int) : String :=
  (if 0 ≤ v then "+" else "") ++ intToDecimal v ++ "%"

/-- Ascending-by-symbol order used by `sorted(snapshots, key=lambda x: x.symbol)`. -/
def symbolAsc (a b : StockSnapshot) : Prop := pyStrLe a.symbol b.symbol = true

instance decSymbolAsc : DecidableRel symbolAsc := fun a b =>
  inferInstanceAs (Decidable (pyStrLe a.symbol b.symbol = true))

/-- One `<tr>` row of the summary table for one snapshot. -/
def snapshot_row (s : StockSnapshot) : String :=
  "<tr>" ++ "<td>" ++ s.name ++ " (" ++ s.symbol ++ ")</td>" ++
  "<td>" ++ format_signed_pct s.change_pct ++ "</td>" ++
  "<td>" ++ format_price s.open_price ++ "</td>" ++
  "<td>" ++ format_price s.close_price ++ "</td>" ++
  "<td>" ++ format_price s.high_price ++ "</td>" ++
  "<td>" ++ format_price s.low_price ++ "</td>" ++
  "<td>" ++ intToDecimal s.volume ++ "</td>" ++ "</tr>"

/-- `build_summary_item` from `generate_rss.py`. -/
def build_summary_item (snapshots : List StockSnapshot) (now_utc : Nat)
    (manual : Bool) (base_url : String) : FeedItem :=
  let trade_date := max_trade_date snapshots
  let title := "市场收盘汇总 | " ++ trade_date ++ " | 上涨 " ++
    natToDecimal (up_count snapshots) ++ " / 下跌 " ++ natToDecimal (down_count snapshots)
  let rows : List String :=
    ["<p><strong>字段:</strong> Open / Close / High / Low / Volume / Change%</p>",
     "<table border=\x271\x27 cellpadding=\x276\x27 cellspacing=\x270\x27>",
     "<tr><th>股票</th><th>Change%</th><th>Open</th><th>Close</th><th>High</th><th>Low</th><th>Volume</th></tr>"]
    ++ (snapshots.insertionSort symbolAsc).map snapshot_row
    ++ ["</table>", "<p>生成时间(UTC): " ++ strftime_seconds now_utc ++ "</p>"]
  let description := String.join rows
  let guid :=
    if manual then "daily-" ++ trade_date ++ "-manual-" ++ strftime_seconds now_utc
    else "daily-" ++ trade_date
  { guid := guid
    title := title
    description := description
    pub_date := format_datetime now_utc
    link := pyRstrip base_url '/' ++ "/feed.xml" }

/-- The sentinel modelling `datetime.min`, strictly below every parsed
instant. -/
def minInstant : Int := -1

/-- The sort key of `main`: `datetime.min` for an empty `pubDate`,
otherwise the parsed timestamp; `none` models `parsedate_to_datetime`
raising on a non-empty unparseable string. -/
def sort_key (x : FeedItem) : Option Int :=
  if x.pub_date = "" then some minInstant
  else
    match parsedate_to_datetime x.pub_date with
    | none => none
    | some n => some (Int.ofNat n)

/-- Total extension of `sort_key` used to phrase the sort order (the sort
itself is only run when every key is available). -/
def keyD (x : FeedItem) : Int := (sort_key x).getD 0

/-- The descending-by-timestamp order of `sorted(..., reverse=True)`. -/
def newerFirst (a b : FeedItem) : Prop := keyD b ≤ keyD a

instance decNewerFirst : DecidableRel newerFirst := fun a b =>
  inferInstanceAs (Decidable (keyD b ≤ keyD a))

instance totalNewerFirst : IsTotal FeedItem newerFirst :=
  ⟨fun a b => Int.le_total (keyD b) (keyD a)⟩

instance transNewerFirst : IsTrans FeedItem newerFirst :=
  ⟨fun _ _ _ h1 h2 => le_trans h2 h1⟩

/-- The `sorted(merged.values(), key=..., reverse=True)[:max_items]` step of
`main`: CPython materialises every key before sorting, raising at the first
failure, so the model errors when any key is unavailable and otherwise takes
the first `max_items` entries of the stable descending sort. -/
def sorted_items (l : List FeedItem) (max_items : Nat) :
    Except Unit (List FeedItem) :=
  if l.all (fun x => (sort_key x).isSome) then
    .ok ((l.insertionSort newerFirst).take max_items)
  else .error ()

/-- The merge step of `main`: keep only prior entries whose identity starts
with `"daily-"`, copy them into a fresh dict, write the new summary at its
guid, then sort and truncate the values. -/
def mergeAndSort (prior : List (String × FeedItem)) (summary : FeedItem)
    (max_items : Nat) : Except Unit (List FeedItem) :=
  sorted_items
    ((dictInsert (prior.filter (fun p => startswith p.1 "daily-"))
      summary.guid summary).map Prod.snd)
    max_items

/-- `main` from `generate_rss.py`, over one run's inputs: the persisted
feed file, the configured instruments, the fetch outcome per instrument
(`none` models "no data"), the current instant, and the run parameters.
The result is the exit code paired with the written feed (`none` when no
write happened); `Except.error` models an exception escaping `main`. -/
def runMain (feedFile : FeedFile) (configs : List StockConfig)
    (fetch : StockConfig → Option StockSnapshot) (now_utc : Nat)
    (manual : Bool) (max_items : Nat) (base_url : String) :
    Except Unit (Nat × Option (List FeedItem)) :=
  match parse_existing_items feedFile with
  | .error e => .error e
  | .ok prior =>
    let snapshots := configs.filterMap fetch
    if snapshots = [] then .ok (1, none)
    else
      let summary := build_summary_item snapshots now_utc manual base_url
      match mergeAndSort prior summary max_items with
      | .error e => .error e
      | .ok out => .ok (0, some out)

/-! ### Properties of the datetime rendering model -/

theorem charDigit?_digitChar (d : Nat) (h : d < 10) :
    charDigit? (digitChar d) = some d := by
  interval_cases d <;> rfl

theorem mem_natToRevDigitsAux_lt :
    ∀ (fuel n d : Nat), d ∈ natToRevDigitsAux fuel n → d < 10 := by
  intro fuel
  induction fuel with
  | zero => intro n d h; simp [natToRevDigitsAux] at h
  | succ fuel ih =>
    intro n d h
    by_cases hn : n = 0
    · simp [natToRevDigitsAux, hn] at h
    · simp only [natToRevDigitsAux, if_neg hn, List.mem_cons] at h
      rcases h with h | h
      · exact h ▸ Nat.mod_lt n (by decide)
      · exact ih _ _ h

theorem charsToDigits?_map_digitChar :
    ∀ (l : List Nat), (∀ d ∈ l, d < 10) → charsToDigits? (l.map digitChar) = some l := by
  intro l
  induction l with
  | nil => intro _; rfl
  | cons d ds ih =>
    intro h
    have hd : d < 10 := h d (by simp)
    have hds := ih (fun x hx => h x (by simp [hx]))
    simp [charsToDigits?, charDigit?_digitChar d hd, hds]

theorem valRev_natToRevDigitsAux :
    ∀ (fuel n : Nat), n ≤ fuel → valRevDigits (natToRevDigitsAux fuel n) = n := by
  intro fuel
  induction fuel with
  | zero =>
    intro n h
    have : n = 0 := Nat.le_zero.mp h
    subst this
    rfl
  | succ fuel ih =>
    intro n h
    by_cases hn : n = 0
    · subst hn; rfl
    · have hdiv : n / 10 ≤ fuel := by
        have h1 : n / 10 < n := Nat.div_lt_self (Nat.pos_of_ne_zero hn) (by decide)
        omega
      simp only [natToRevDigitsAux, if_neg hn, valRevDigits, ih _ hdiv]
      exact Nat.mod_add_div n 10

theorem decimalToNat?_natToDecimal (n : Nat) :
    decimalToNat? (natToDecimal n) = some n := by
  by_cases hn : n = 0
  · subst hn; rfl
  · have hval : valRevDigits (natToRevDigits n) = n :=
      valRev_natToRevDigitsAux (n + 1) n (Nat.le_succ n)
    have hbound : ∀ d ∈ (natToRevDigits n).reverse, d < 10 := fun d hd =>
      mem_natToRevDigitsAux_lt (n + 1) n d (List.mem_reverse.mp hd)
    have hnil : natToRevDigits n ≠ [] := by
      intro hcontra
      rw [hcontra] at hval
      exact hn hval.symm
    unfold natToDecimal decimalToNat?
    rw [if_neg hn]
    have hdata : (String.mk ((natToRevDigits n).reverse.map digitChar)).data
        = (natToRevDigits n).reverse.map digitChar := rfl
    rw [hdata, charsToDigits?_map_digitChar _ hbound]
    cases hrev : (natToRevDigits n).reverse with
    | nil => exact absurd (by simpa using hrev) hnil
    | cons a as =>
      show some (valRevDigits (a :: as).reverse) = some n
      rw [← hrev, List.reverse_reverse, hval]

theorem natToDecimal_injective : Function.Injective natToDecimal := by
  intro a b h
  have ha := decimalToNat?_natToDecimal a
  rw [h, decimalToNat?_natToDecimal b] at ha
  exact (Option.some_inj.mp ha).symm

theorem natToDecimal_ne_empty (n : Nat) : natToDecimal n ≠ "" := by
  intro h
  have := decimalToNat?_natToDecimal n
  rw [h] at this
  exact Option.noConfusion this

theorem parsedate_format (n : Nat) :
    parsedate_to_datetime (format_datetime n) = some n :=
  decimalToNat?_natToDecimal n

/-! ### Properties of the string helpers -/

theorem startswith_append (p r : String) : startswith (p ++ r) p = true := by
  unfold startswith
  rw [String.data_append]
  exact List.isPrefixOf_iff_prefix.mpr (List.prefix_append _ _)

theorem string_append_left_cancel {s a b : String} (h : s ++ a = s ++ b) :
    a = b := by
  apply String.ext
  have hd := congrArg String.data h
  rw [String.data_append, String.data_append] at hd
  exact List.append_cancel_left hd

theorem manual_guid_inj (d : String) {t1 t2 : Nat}
    (h : "daily-" ++ d ++ "-manual-" ++ strftime_seconds t1
       = "daily-" ++ d ++ "-manual-" ++ strftime_seconds t2) : t1 = t2 :=
  natToDecimal_injective (string_append_left_cancel h)

/-! ### Properties of the dict model -/

/-- The Feed Store Reader invariant on a prior mapping: keys are pairwise
distinct and each key is its entry's identity. -/
def goodDict (m : List (String × FeedItem)) : Prop :=
  (m.map Prod.fst).Nodup ∧ ∀ p ∈ m, p.1 = p.2.guid

theorem dictInsert_of_forall_ne {m : List (String × FeedItem)} {k : String}
    (v : FeedItem) (h : ∀ p ∈ m, p.1 ≠ k) : dictInsert m k v = m ++ [(k, v)] := by
  unfold dictInsert
  rw [if_neg]
  simp only [List.any_eq_true, decide_eq_true_eq, not_exists, not_and]
  exact h

theorem pair_mem_dictInsert (m : List (String × FeedItem)) (k : String)
    (v : FeedItem) : (k, v) ∈ dictInsert m k v := by
  unfold dictInsert
  by_cases hc : m.any (fun p => decide (p.1 = k)) = true
  · rw [if_pos hc]
    simp only [List.any_eq_true, decide_eq_true_eq] at hc
    obtain ⟨p, hp, he⟩ := hc
    exact List.mem_map.mpr ⟨p, hp, by rw [if_pos he]⟩
  · rw [if_neg hc]
    simp

theorem mem_dictInsert {m : List (String × FeedItem)} {k : String}
    {v : FeedItem} {p : String × FeedItem} (h : p ∈ dictInsert m k v) :
    p = (k, v) ∨ p ∈ m := by
  unfold dictInsert at h
  by_cases hc : m.any (fun q => decide (q.1 = k)) = true
  · rw [if_pos hc] at h
    obtain ⟨q, hq, he⟩ := List.mem_map.mp h
    by_cases hqk : q.1 = k
    · rw [if_pos hqk] at he
      exact Or.inl he.symm
    · rw [if_neg hqk] at he
      exact Or.inr (he ▸ hq)
  · rw [if_neg hc] at h
    rcases List.mem_append.mp h with h1 | h1
    · exact Or.inr h1
    · exact Or.inl (List.mem_singleton.mp h1)

theorem eq_of_mem_of_fst_eq {m : List (String × FeedItem)}
    (hnd : (m.map Prod.fst).Nodup) {p q : String × FeedItem}
    (hp : p ∈ m) (hq : q ∈ m) (h : p.1 = q.1) : p = q := by
  induction m with
  | nil => cases hp
  | cons a t ih =>
    rw [List.map_cons, List.nodup_cons] at hnd
    rcases List.mem_cons.mp hp with hp1 | hp1 <;> rcases List.mem_cons.mp hq with hq1 | hq1
    · rw [hp1, hq1]
    · exact absurd (List.mem_map.mpr ⟨q, hq1, by rw [hp1] at h; exact h.symm⟩) hnd.1
    · exact absurd (List.mem_map.mpr ⟨p, hp1, by rw [hq1] at h; exact h⟩) hnd.1
    · exact ih hnd.2 hp1 hq1

theorem dictInsert_of_pair_mem {m : List (String × FeedItem)} {k : String}
    {v : FeedItem} (hnd : (m.map Prod.fst).Nodup) (hmem : (k, v) ∈ m) :
    dictInsert m k v = m := by
  unfold dictInsert
  rw [if_pos (by simp only [List.any_eq_true, decide_eq_true_eq]; exact ⟨(k, v), hmem, rfl⟩)]
  have hcongr : ∀ p ∈ m, (if p.1 = k then ((k, v) : String × FeedItem) else p) = id p := by
    intro p hp
    by_cases hpk : p.1 = k
    · have : p = (k, v) := eq_of_mem_of_fst_eq hnd hp hmem (by rw [hpk])
      rw [if_pos hpk, this]
      rfl
    · rw [if_neg hpk]
      rfl
  rw [List.map_congr_left hcongr, List.map_id]

theorem map_fst_dictInsert_of_any {m : List (String × FeedItem)} {k : String}
    (v : FeedItem) (hc : m.any (fun p => decide (p.1 = k)) = true) :
    (dictInsert m k v).map Prod.fst = m.map Prod.fst := by
  unfold dictInsert
  rw [if_pos hc, List.map_map]
  apply List.map_congr_left
  intro p _
  by_cases hpk : p.1 = k
  · simp [hpk]
  · simp [hpk]

theorem map_fst_dictInsert_nodup {m : List (String × FeedItem)} {k : String}
    (v : FeedItem) (hnd : (m.map Prod.fst).Nodup) :
    ((dictInsert m k v).map Prod.fst).Nodup := by
  by_cases hc : m.any (fun p => decide (p.1 = k)) = true
  · rw [map_fst_dictInsert_of_any v hc]
    exact hnd
  · unfold dictInsert
    rw [if_neg hc, List.map_append]
    simp only [List.any_eq_true, decide_eq_true_eq, not_exists, not_and] at hc
    rw [List.nodup_append]
    refine ⟨hnd, List.nodup_singleton k, ?_⟩
    intro a ha hb
    obtain ⟨p, hp, he⟩ := List.mem_map.mp ha
    simp only [List.map_cons, List.map_nil, List.mem_singleton] at hb
    exact hc p hp (he.trans hb)

theorem goodDict_filter {m : List (String × FeedItem)}
    (q : String × FeedItem → Bool) (h : goodDict m) : goodDict (m.filter q) :=
  ⟨((List.filter_sublist m).map Prod.fst).nodup h.1,
   fun p hp => h.2 p (List.mem_of_mem_filter hp)⟩

theorem goodDict_dictInsert {m : List (String × FeedItem)} {k : String}
    {v : FeedItem} (h : goodDict m) (hk : k = v.guid) :
    goodDict (dictInsert m k v) := by
  refine ⟨map_fst_dictInsert_nodup v h.1, ?_⟩
  intro p hp
  rcases mem_dictInsert hp with h1 | h1
  · rw [h1]
    exact hk
  · exact h.2 p h1

theorem values_map_guid {m : List (String × FeedItem)} (h : goodDict m) :
    (m.map Prod.snd).map FeedItem.guid = m.map Prod.fst := by
  rw [List.map_map]
  exact List.map_congr_left (fun p hp => (h.2 p hp).symm)

theorem goodDict_foldl_parse_item_step :
    ∀ (items : List XmlNode) (acc : List (String × FeedItem)),
    goodDict acc → (∀ p ∈ acc, p.1 ≠ "") →
    goodDict (items.foldl parse_item_step acc) ∧
      ∀ p ∈ items.foldl parse_item_step acc, p.1 ≠ "" := by
  intro items
  induction items with
  | nil => intro acc h1 h2; exact ⟨h1, h2⟩
  | cons it rest ih =>
    intro acc h1 h2
    rw [List.foldl_cons]
    by_cases hg : pyStrip ((findtext it "guid").getD "") = ""
    · have hstep : parse_item_step acc it = acc := by
        unfold parse_item_step
        rw [if_pos hg]
      rw [hstep]
      exact ih acc h1 h2
    · have hstep : parse_item_step acc it
        = dictInsert acc (pyStrip ((findtext it "guid").getD ""))
            (item_of_xml (pyStrip ((findtext it "guid").getD "")) it) := by
        unfold parse_item_step
        rw [if_neg hg]
      rw [hstep]
      apply ih
      · exact goodDict_dictInsert h1 rfl
      · intro p hp
        rcases mem_dictInsert hp with he | he
        · rw [he]
          exact hg
        · exact h2 p he

theorem parse_existing_items_goodDict {f : FeedFile}
    {m : List (String × FeedItem)} (h : parse_existing_items f = .ok m) :
    goodDict m ∧ ∀ p ∈ m, p.1 ≠ "" := by
  cases f with
  | missing =>
    injection h with h2
    subst h2
    exact ⟨⟨List.nodup_nil, by simp⟩, by simp⟩
  | malformed => exact Except.noConfusion h
  | wellFormed root =>
    simp only [parse_existing_items] at h
    cases hc : findChild root "channel" with
    | none =>
      rw [hc] at h
      injection h with h2
      subst h2
      exact ⟨⟨List.nodup_nil, by simp⟩, by simp⟩
    | some channel =>
      rw [hc] at h
      injection h with h2
      subst h2
      exact goodDict_foldl_parse_item_step _ [] ⟨List.nodup_nil, by simp⟩ (by simp)

/-! ### Properties of the sort-and-truncate step -/

theorem sorted_items_ok {l : List FeedItem} {M : Nat} {out : List FeedItem}
    (h : sorted_items l M = .ok out) :
    (∀ x ∈ l, (sort_key x).isSome = true) ∧
      out = (l.insertionSort newerFirst).take M := by
  unfold sorted_items at h
  by_cases hc : l.all (fun x => (sort_key x).isSome) = true
  · rw [if_pos hc] at h
    injection h with h2
    exact ⟨List.all_eq_true.mp hc, h2.symm⟩
  · rw [if_neg hc] at h
    exact Except.noConfusion h

theorem sorted_items_ok_of {l : List FeedItem} (M : Nat)
    (h : ∀ x ∈ l, (sort_key x).isSome = true) :
    sorted_items l M = .ok ((l.insertionSort newerFirst).take M) := by
  unfold sorted_items
  rw [if_pos (List.all_eq_true.mpr h)]

theorem sorted_items_sorted {l : List FeedItem} {M : Nat} {out : List FeedItem}
    (h : sorted_items l M = .ok out) : out.Sorted newerFirst := by
  obtain ⟨-, rfl⟩ := sorted_items_ok h
  exact List.Pairwise.sublist (List.take_sublist M _)
    (List.sorted_insertionSort newerFirst l)

theorem sorted_items_length {l : List FeedItem} {M : Nat} {out : List FeedItem}
    (h : sorted_items l M = .ok out) : out.length ≤ M := by
  obtain ⟨-, rfl⟩ := sorted_items_ok h
  exact List.length_take_le M _

theorem sorted_items_subset {l : List FeedItem} {M : Nat} {out : List FeedItem}
    (h : sorted_items l M = .ok out) : ∀ x ∈ out, x ∈ l := by
  obtain ⟨-, rfl⟩ := sorted_items_ok h
  intro x hx
  exact (List.mem_insertionSort newerFirst).mp (List.mem_of_mem_take hx)

/-! ### Properties of the merge step of main -/

theorem mergeAndSort_ok {prior : List (String × FeedItem)} {s : FeedItem}
    {M : Nat} {out : List FeedItem} (h : mergeAndSort prior s M = .ok out) :
    (∀ x ∈ (dictInsert (prior.filter (fun p => startswith p.1 "daily-")) s.guid s).map
        Prod.snd, (sort_key x).isSome = true) ∧
      out = (((dictInsert (prior.filter (fun p => startswith p.1 "daily-")) s.guid
        s).map Prod.snd).insertionSort newerFirst).take M :=
  sorted_items_ok h

theorem mem_values_dictInsert {m : List (String × FeedItem)} {k : String}
    {v x : FeedItem} (h : x ∈ (dictInsert m k v).map Prod.snd) :
    x = v ∨ x ∈ m.map Prod.snd := by
  obtain ⟨p, hp, he⟩ := List.mem_map.mp h
  rcases mem_dictInsert hp with h1 | h1
  · left
    rw [← he, h1]
  · right
    exact List.mem_map.mpr ⟨p, h1, he⟩

theorem mergeAndSort_mem {prior : List (String × FeedItem)} {s : FeedItem}
    {M : Nat} {out : List FeedItem} (h : mergeAndSort prior s M = .ok out)
    {x : FeedItem} (hx : x ∈ out) :
    x = s ∨ x ∈ (prior.filter (fun p => startswith p.1 "daily-")).map Prod.snd := by
  obtain ⟨-, rfl⟩ := mergeAndSort_ok h
  exact mem_values_dictInsert
    ((List.mem_insertionSort newerFirst).mp (List.mem_of_mem_take hx))

theorem mergeAndSort_all_daily {prior : List (String × FeedItem)} {s : FeedItem}
    {M : Nat} {out : List FeedItem} (hgd : goodDict prior)
    (hs : startswith s.guid "daily-" = true)
    (h : mergeAndSort prior s M = .ok out) :
    ∀ x ∈ out, startswith x.guid "daily-" = true := by
  intro x hx
  rcases mergeAndSort_mem h hx with he | he
  · rw [he]
    exact hs
  · obtain ⟨p, hp, hpe⟩ := List.mem_map.mp he
    have hf := List.mem_filter.mp hp
    have hguid : p.1 = p.2.guid := hgd.2 p hf.1
    rw [← hpe, ← hguid]
    exact hf.2

theorem mergeAndSort_nodup_guids {prior : List (String × FeedItem)}
    {s : FeedItem} {M : Nat} {out : List FeedItem} (hgd : goodDict prior)
    (h : mergeAndSort prior s M = .ok out) : (out.map FeedItem.guid).Nodup := by
  obtain ⟨-, rfl⟩ := mergeAndSort_ok h
  have hD : goodDict (dictInsert (prior.filter (fun p => startswith p.1 "daily-"))
      s.guid s) :=
    goodDict_dictInsert (goodDict_filter _ hgd) rfl
  have hVnd : (((dictInsert (prior.filter (fun p => startswith p.1 "daily-"))
      s.guid s).map Prod.snd).map FeedItem.guid).Nodup := by
    rw [values_map_guid hD]
    exact hD.1
  have hSnd := ((List.perm_insertionSort newerFirst _).map
    FeedItem.guid).nodup_iff.mpr hVnd
  exact ((List.take_sublist M _).map FeedItem.guid).nodup hSnd

theorem mergeAndSort_sorted {prior : List (String × FeedItem)} {s : FeedItem}
    {M : Nat} {out : List FeedItem} (h : mergeAndSort prior s M = .ok out) :
    out.Sorted newerFirst :=
  sorted_items_sorted h

theorem mergeAndSort_length {prior : List (String × FeedItem)} {s : FeedItem}
    {M : Nat} {out : List FeedItem} (h : mergeAndSort prior s M = .ok out) :
    out.length ≤ M :=
  sorted_items_length h

/-! ### Properties of the summary builder -/

theorem build_guid_manual (s : List StockSnapshot) (n : Nat) (u : String) :
    (build_summary_item s n true u).guid
      = "daily-" ++ max_trade_date s ++ "-manual-" ++ strftime_seconds n := rfl

theorem build_guid_nonmanual (s : List StockSnapshot) (n : Nat) (u : String) :
    (build_summary_item s n false u).guid = "daily-" ++ max_trade_date s := rfl

theorem build_pub_date (s : List StockSnapshot) (n : Nat) (m : Bool)
    (u : String) : (build_summary_item s n m u).pub_date = format_datetime n := by
  cases m <;> rfl

theorem build_guid_daily (s : List StockSnapshot) (n : Nat) (m : Bool)
    (u : String) :
    startswith (build_summary_item s n m u).guid "daily-" = true := by
  cases m
  · rw [build_guid_nonmanual]
    exact startswith_append _ _
  · rw [build_guid_manual, String.append_assoc, String.append_assoc]
    exact startswith_append _ _

theorem sort_key_build (s : List StockSnapshot) (n : Nat) (m : Bool)
    (u : String) : sort_key (build_summary_item s n m u) = some ((n : Nat) : Int) := by
  unfold sort_key
  rw [build_pub_date]
  unfold format_datetime
  rw [if_neg (natToDecimal_ne_empty n)]
  rw [show parsedate_to_datetime (natToDecimal n) = some n from decimalToNat?_natToDecimal n]
  rfl

theorem mergeAndSort_ok_of {prior : List (String × FeedItem)} {s : FeedItem}
    (M : Nat) (hk : ∀ p ∈ prior, (sort_key p.2).isSome = true)
    (hs : (sort_key s).isSome = true) :
    ∃ out, mergeAndSort prior s M = .ok out := by
  refine ⟨_, sorted_items_ok_of M ?_⟩
  intro x hx
  rcases mem_values_dictInsert hx with he | he
  · rw [he]
    exact hs
  · obtain ⟨p, hp, hpe⟩ := List.mem_map.mp he
    exact hpe ▸ hk p (List.mem_of_mem_filter hp)

/-- Core idempotence of the merge step: feeding the output of one merge
back in as the prior mapping and merging the same summary again reproduces
the same output list. -/
theorem mergeAndSort_idempotent {prior : List (String × FeedItem)}
    {s : FeedItem} {M : Nat} {out : List FeedItem} (hgd : goodDict prior)
    (hdaily : startswith s.guid "daily-" = true)
    (h : mergeAndSort prior s M = .ok out) :
    mergeAndSort (out.map (fun it => (it.guid, it))) s M = .ok out := by
  obtain ⟨hkeys, hout⟩ := mergeAndSort_ok h
  set E := prior.filter (fun p => startswith p.1 "daily-") with hE
  set D := dictInsert E s.guid s with hD
  set V := D.map Prod.snd with hV
  set S := V.insertionSort newerFirst with hS
  have hgdD : goodDict D := goodDict_dictInsert (goodDict_filter _ hgd) rfl
  have hVnd : (V.map FeedItem.guid).Nodup := by
    rw [hV, values_map_guid hgdD]
    exact hgdD.1
  have hperm : S.Perm V := List.perm_insertionSort newerFirst V
  have hSsorted : S.Sorted newerFirst := List.sorted_insertionSort newerFirst V
  have hSg_nd : (S.map FeedItem.guid).Nodup := (hperm.map _).nodup_iff.mpr hVnd
  have hout_nd : (out.map FeedItem.guid).Nodup :=
    hout ▸ ((List.take_sublist M S).map _).nodup hSg_nd
  have houtsub : ∀ x ∈ out, x ∈ S := by
    rw [hout]
    exact fun x hx => List.mem_of_mem_take hx
  have hkeys_out : ∀ x ∈ out, (sort_key x).isSome = true := fun x hx =>
    hkeys x (hperm.subset (houtsub x hx))
  have hout_sorted : out.Sorted newerFirst :=
    hout ▸ List.Pairwise.sublist (List.take_sublist M S) hSsorted
  have hall_daily : ∀ x ∈ out, startswith x.guid "daily-" = true :=
    mergeAndSort_all_daily hgd hdaily h
  set P2 := out.map (fun it => (it.guid, it)) with hP2
  have hP2filter : P2.filter (fun p => startswith p.1 "daily-") = P2 := by
    apply List.filter_eq_self.mpr
    intro p hp
    obtain ⟨x, hx, he⟩ := List.mem_map.mp hp
    rw [← he]
    exact hall_daily x hx
  have hP2snd : P2.map Prod.snd = out := by
    rw [hP2, List.map_map]
    exact List.map_id out
  have hP2fst : P2.map Prod.fst = out.map FeedItem.guid := by
    rw [hP2, List.map_map]
    rfl
  have hP2nd : (P2.map Prod.fst).Nodup := hP2fst ▸ hout_nd
  by_cases hg : s.guid ∈ out.map FeedItem.guid
  · obtain ⟨x, hx, hxg⟩ := List.mem_map.mp hg
    have hxV : x ∈ V := hperm.subset (houtsub x hx)
    have hsD : (s.guid, s) ∈ D := pair_mem_dictInsert E s.guid s
    obtain ⟨p, hpD, hpe⟩ := List.mem_map.mp hxV
    have hp1 : p.1 = s.guid := by rw [hgdD.2 p hpD, hpe, hxg]
    have hps : p = (s.guid, s) := eq_of_mem_of_fst_eq hgdD.1 hpD hsD hp1
    have hxs : x = s := by rw [← hpe, hps]
    have hmem : (s.guid, s) ∈ P2 := by
      rw [hP2]
      exact List.mem_map.mpr ⟨x, hx, by rw [hxs]⟩
    have hins : dictInsert P2 s.guid s = P2 := dictInsert_of_pair_mem hP2nd hmem
    have hlen : out.length ≤ M := by
      rw [hout]
      exact List.length_take_le M S
    unfold mergeAndSort
    rw [hP2filter, hins, hP2snd, sorted_items_ok_of M hkeys_out,
      hout_sorted.insertionSort_eq, List.take_of_length_le hlen]
  · have hsV : s ∈ V := by
      rw [hV]
      exact List.mem_map.mpr ⟨(s.guid, s), pair_mem_dictInsert E s.guid s, rfl⟩
    have hsS : s ∈ S := hperm.mem_iff.mpr hsV
    have hsnotout : s ∉ out := fun hmem => hg (List.mem_map.mpr ⟨s, hmem, rfl⟩)
    have hsplit : S.take M ++ S.drop M = S := List.take_append_drop M S
    have hsdrop : s ∈ S.drop M := by
      have hsS2 : s ∈ S.take M ++ S.drop M := by rw [hsplit]; exact hsS
      rcases List.mem_append.mp hsS2 with h1 | h1
      · exact absurd (hout ▸ h1) hsnotout
      · exact h1
    have hlenM : out.length = M := by
      have hMlt : M < S.length := by
        by_contra hge
        push_neg at hge
        rw [List.drop_eq_nil_of_le hge] at hsdrop
        cases hsdrop
      rw [hout, List.length_take]
      omega
    have hcross : ∀ x ∈ out, newerFirst x s := by
      have hSsorted2 : (S.take M ++ S.drop M).Pairwise newerFirst := by
        rw [hsplit]
        exact hSsorted
      have hparts := List.pairwise_append.mp hSsorted2
      intro x hx
      exact hparts.2.2 x (hout ▸ hx) s hsdrop
    have hgP2 : ∀ p ∈ P2, p.1 ≠ s.guid := by
      intro p hp he
      exact hg (hP2fst ▸ List.mem_map.mpr ⟨p, hp, he⟩)
    have hins : dictInsert P2 s.guid s = P2 ++ [(s.guid, s)] :=
      dictInsert_of_forall_ne s hgP2
    have hkeys2 : ∀ x ∈ out ++ [s], (sort_key x).isSome = true := by
      intro x hx
      rcases List.mem_append.mp hx with h1 | h1
      · exact hkeys_out x h1
      · rw [List.mem_singleton.mp h1]
        exact hkeys s hsV
    have hsorted2 : (out ++ [s]).Sorted newerFirst := by
      rw [List.Sorted, List.pairwise_append]
      exact ⟨hout_sorted, List.pairwise_singleton _ _,
        fun a ha b hb => by rw [List.mem_singleton.mp hb]; exact hcross a ha⟩
    unfold mergeAndSort
    rw [hP2filter, hins, List.map_append]
    simp only [List.map_cons, List.map_nil]
    rw [hP2snd, sorted_items_ok_of M hkeys2, hsorted2.insertionSort_eq,
      ← hlenM, List.take_left]

/-! ### Unfolding main -/

theorem runMain_of_parse_error {f : FeedFile} {e : Unit}
    {configs : List StockConfig} {fetch : StockConfig → Option StockSnapshot}
    {now : Nat} {manual : Bool} {M : Nat} {url : String}
    (hp : parse_existing_items f = .error e) :
    runMain f configs fetch now manual M url = .error e := by
  unfold runMain
  rw [hp]

theorem runMain_of_parse {f : FeedFile} {prior : List (String × FeedItem)}
    {configs : List StockConfig} {fetch : StockConfig → Option StockSnapshot}
    {now : Nat} {manual : Bool} {M : Nat} {url : String}
    (hp : parse_existing_items f = .ok prior) :
    runMain f configs fetch now manual M url =
      (if configs.filterMap fetch = [] then .ok (1, none)
       else
         match mergeAndSort prior
             (build_summary_item (configs.filterMap fetch) now manual url) M with
         | .error e => .error e
         | .ok out => .ok (0, some out)) := by
  unfold runMain
  rw [hp]

theorem runMain_ok_some_elim {f : FeedFile} {configs : List StockConfig}
    {fetch : StockConfig → Option StockSnapshot} {now : Nat} {manual : Bool}
    {M : Nat} {url : String} {c : Nat} {out : List FeedItem}
    (h : runMain f configs fetch now manual M url = .ok (c, some out)) :
    ∃ prior, parse_existing_items f = .ok prior ∧ goodDict prior ∧
      configs.filterMap fetch ≠ [] ∧ c = 0 ∧
      mergeAndSort prior
        (build_summary_item (configs.filterMap fetch) now manual url) M = .ok out := by
  cases hp : parse_existing_items f with
  | error e =>
    rw [runMain_of_parse_error hp] at h
    exact Except.noConfusion h
  | ok prior =>
    rw [runMain_of_parse hp] at h
    by_cases hs : configs.filterMap fetch = []
    · rw [if_pos hs] at h
      injection h with h2
      exact absurd (congrArg Prod.snd h2) (by simp)
    · rw [if_neg hs] at h
      cases hm : mergeAndSort prior
          (build_summary_item (configs.filterMap fetch) now manual url) M with
      | error e =>
        rw [hm] at h
        exact Except.noConfusion h
      | ok out2 =>
        rw [hm] at h
        injection h with h2
        have hc : c = 0 := (congrArg Prod.fst h2).symm
        have ho : out2 = out := Option.some_inj.mp (congrArg Prod.snd h2)
        exact ⟨prior, rfl, (parse_existing_items_goodDict hp).1, hs, hc, by rw [hm, ho]⟩

/-! ### Sort-key facts -/

theorem sort_key_empty {x : FeedItem} (h : x.pub_date = "") :
    sort_key x = some minInstant := by
  unfold sort_key
  rw [if_pos h]

theorem keyD_ge_min {y : FeedItem} (h : (sort_key y).isSome = true) :
    minInstant ≤ keyD y := by
  unfold keyD
  unfold sort_key at h ⊢
  by_cases he : y.pub_date = ""
  · rw [if_pos he]
    exact le_refl _
  · rw [if_neg he] at h ⊢
    cases hp : parsedate_to_datetime y.pub_date with
    | none =>
      rw [hp] at h
      simp at h
    | some n =>
      show minInstant ≤ (some (Int.ofNat n)).getD 0
      exact le_trans (by decide : minInstant ≤ 0) (Int.natCast_nonneg n)

/-! ### Concrete inputs used by counterexamples and witnesses -/

/-- A concrete snapshot. -/
def exSnap : StockSnapshot :=
  { name := "X", symbol := "X", trade_date := "2024-01-05", open_price := 100,
    close_price := 105, high_price := 106, low_price := 99, volume := 10,
    change_pct := 5 }

/-- A concrete snapshot whose change percent is exactly zero. -/
def zSnap : StockSnapshot :=
  { name := "Z", symbol := "Z", trade_date := "2024-01-05", open_price := 100,
    close_price := 100, high_price := 101, low_price := 99, volume := 3,
    change_pct := 0 }

/-- A concrete instrument configuration. -/
def exCfg : StockConfig := { name := "X", symbol := "X" }

/-- A persisted feed whose only entry carries the non-daily identity
"legacy-1". -/
def c1root : XmlNode :=
  .mk "rss" none [.mk "channel" none
    [.mk "item" none [.mk "guid" (some "legacy-1") [], .mk "title" (some "old") []]]]

/-- The mapping loaded from `c1root`. -/
def exPrior : List (String × FeedItem) :=
  [("legacy-1",
    { guid := "legacy-1", title := "old", description := "", pub_date := "",
      link := "" })]

/-- A prior entry with a non-empty timestamp that does not parse. -/
def c2bad : FeedItem :=
  { guid := "daily-old", title := "", description := "", pub_date := "not-a-date",
    link := "" }

/-- A prior entry with an absent (empty) timestamp. -/
def c2empty : FeedItem :=
  { guid := "daily-a", title := "", description := "", pub_date := "", link := "" }

/-- A prior entry with a parseable timestamp. -/
def c2dated : FeedItem :=
  { guid := "daily-b", title := "", description := "", pub_date := "5", link := "" }

/-- A concrete run of main over `c1root` with one fetched snapshot. -/
def exRun : Except Unit (Nat × Option (List FeedItem)) :=
  runMain (.wellFormed c1root) [exCfg] (fun _ => some exSnap) 7 false 10 "u"

/-- The feed written by `exRun`. -/
def exOut : List FeedItem :=
  match exRun with
  | .ok (_, some l) => l
  | _ => []

/-- A well-formed prior mapping for the idempotence witness. -/
def c5prior : List (String × FeedItem) := [("daily-a", c2empty)]

/-- First merge of the idempotence witness. -/
def c5out : List FeedItem :=
  match mergeAndSort c5prior (build_summary_item [exSnap] 7 false "u") 5 with
  | .ok l => l
  | .error _ => []

/-! ### The claims -/

/-- C1 counterexample: the persisted feed holds exactly one prior entry and
its identity "legacy-1" does not carry the "daily-" prefix; a summary-mode
run over it succeeds, and the feed written by the run contains only the new
summary identity — the legacy entry does not remain present after the merge
and write, contradicting the claim. -/
theorem c1_legacy_entry_not_preserved_cex :
    parse_existing_items (.wellFormed c1root) = .ok exPrior ∧
    (runMain (.wellFormed c1root) [exCfg] (fun _ => some exSnap) 7 false 10
        "u").map (fun r => (r.2.getD []).map (fun it => it.guid))
      = .ok ["daily-2024-01-05"] :=
  ⟨rfl, rfl⟩

/-- C1 (amended): a prior entry whose identity does not start with "daily-"
is indeed never eligible for replacement by the new summary, but it is not
preserved either: the pre-merge filter drops it, so every entry of the feed
written by a successful run has a "daily-"-prefixed identity and the
non-daily entry is absent from the persisted feed. -/
theorem c1_summary_run_writes_only_daily {f : FeedFile}
    {configs : List StockConfig} {fetch : StockConfig → Option StockSnapshot}
    {now : Nat} {manual : Bool} {M : Nat} {url : String} {c : Nat}
    {out : List FeedItem}
    (h : runMain f configs fetch now manual M url = .ok (c, some out)) :
    out.all (fun x => startswith x.guid "daily-") = true := by
  obtain ⟨prior, -, hgd, -, -, hm⟩ := runMain_ok_some_elim h
  exact List.all_eq_true.mpr (mergeAndSort_all_daily hgd (build_guid_daily _ _ _ _) hm)

/-- Witness for the amended C1 at a concrete run. -/
theorem c1_summary_run_writes_only_daily_witness :
    exOut.all (fun x => startswith x.guid "daily-") = true :=
  c1_summary_run_writes_only_daily
    (rfl : runMain (.wellFormed c1root) [exCfg] (fun _ => some exSnap) 7 false 10 "u"
      = .ok (0, some exOut))

/-- C2 counterexample: a prior entry whose publication timestamp is
non-empty but unparseable makes the merge-output sort raise (the model's
`Except.error`, matching `parsedate_to_datetime` raising `ValueError`),
instead of sorting that entry as the earliest possible instant. -/
theorem c2_unparseable_timestamp_raises_cex :
    mergeAndSort [("daily-old", c2bad)] (build_summary_item [exSnap] 7 false "u")
      10 = .error () := rfl

/-- C2 (amended): the sort key falls back to the earliest-instant sentinel
only for an ABSENT (empty) timestamp, and the sort is total when every
non-empty timestamp parses: such entries get the minimal key, below every
other entry's key, and the sort returns without error.  A non-empty
unparseable timestamp instead raises (see the counterexample). -/
theorem c2_absent_timestamp_sorts_minimal (l : List FeedItem) (M : Nat)
    (h : ∀ x ∈ l, x.pub_date = "" ∨ (parsedate_to_datetime x.pub_date).isSome = true) :
    sorted_items l M ≠ .error () ∧
    ∀ x ∈ l, x.pub_date = "" →
      sort_key x = some minInstant ∧ ∀ y ∈ l, keyD x ≤ keyD y := by
  have hk : ∀ x ∈ l, (sort_key x).isSome = true := by
    intro x hx
    rcases h x hx with he | hp
    · rw [sort_key_empty he]
      rfl
    · unfold sort_key
      by_cases he : x.pub_date = ""
      · rw [if_pos he]
        rfl
      · rw [if_neg he]
        cases hq : parsedate_to_datetime x.pub_date with
        | none =>
          rw [hq] at hp
          exact Bool.noConfusion hp
        | some n => rfl
  constructor
  · rw [sorted_items_ok_of M hk]
    intro hc
    exact Except.noConfusion hc
  · intro x hx he
    refine ⟨sort_key_empty he, ?_⟩
    intro y hy
    have hxk : keyD x = minInstant := by
      unfold keyD
      rw [sort_key_empty he]
      rfl
    rw [hxk]
    exact keyD_ge_min (hk y hy)

/-- Witness for the amended C2 at a concrete list. -/
theorem c2_absent_timestamp_sorts_minimal_witness :
    sorted_items [c2empty, c2dated] 5 ≠ .error () ∧
    sort_key c2empty = some minInstant ∧ keyD c2empty ≤ keyD c2dated := by
  have h := c2_absent_timestamp_sorts_minimal [c2empty, c2dated] 5 (by decide)
  exact ⟨h.1, (h.2 c2empty (by simp) rfl).1,
    (h.2 c2empty (by simp) rfl).2 c2dated (by simp)⟩

/-- C3 counterexample: a persisted feed file that is not well-formed XML
makes `parse_existing_items` raise (`ET.parse` propagates `ParseError`),
rather than yielding an empty mapping. -/
theorem c3_malformed_document_raises_cex :
    parse_existing_items .malformed = .error () := rfl

/-- C3 (amended): loading prior entries yields an empty mapping for a
missing file and for a well-formed document lacking the `channel`
container, and silently drops entries with an empty or absent identity
(every loaded key is non-empty and equals its entry's identity) — but a
syntactically malformed document raises instead of degrading to an empty
mapping (see the counterexample). -/
theorem c3_reader_tolerance :
    parse_existing_items .missing = .ok ([] : List (String × FeedItem)) ∧
    (∀ root : XmlNode, findChild root "channel" = none →
      parse_existing_items (.wellFormed root) = .ok []) ∧
    ∀ (f : FeedFile) (m : List (String × FeedItem)),
      parse_existing_items f = .ok m → ∀ p ∈ m, p.1 ≠ "" ∧ p.1 = p.2.guid := by
  refine ⟨rfl, ?_, ?_⟩
  · intro root hc
    simp only [parse_existing_items]
    rw [hc]
  · intro f m h p hp
    obtain ⟨hgd, hne⟩ := parse_existing_items_goodDict h
    exact ⟨hne p hp, hgd.2 p hp⟩

/-- Witness for the amended C3: a well-formed document without a channel
loads as the empty mapping. -/
theorem c3_reader_tolerance_witness :
    parse_existing_items (.wellFormed (.mk "rss" none [])) = .ok [] :=
  c3_reader_tolerance.2.1 _ rfl

/-- C4: over a readable prior feed whose loaded timestamps are available to
the sort, the run exits 0 and writes the feed whenever at least one
instrument yields a usable snapshot — however many instruments returned no
data — and exits 1 without writing when zero instruments yield data. -/
theorem c4_exit_code_contract {f : FeedFile} {prior : List (String × FeedItem)}
    (configs : List StockConfig) (fetch : StockConfig → Option StockSnapshot)
    (now : Nat) (manual : Bool) (M : Nat) (url : String)
    (hp : parse_existing_items f = .ok prior)
    (hk : ∀ p ∈ prior, (sort_key p.2).isSome = true) :
    (configs.filterMap fetch ≠ [] →
      (runMain f configs fetch now manual M url).map (fun r => (r.1, r.2.isSome))
        = .ok (0, true)) ∧
    (configs.filterMap fetch = [] →
      runMain f configs fetch now manual M url = .ok (1, none)) := by
  constructor
  · intro hs
    have hsk : (sort_key (build_summary_item (configs.filterMap fetch) now manual
        url)).isSome = true := by
      simp [sort_key_build]
    obtain ⟨out, hm⟩ := mergeAndSort_ok_of M hk hsk
    rw [runMain_of_parse hp, if_neg hs, hm]
    rfl
  · intro hs
    rw [runMain_of_parse hp, if_pos hs]

/-- Witness for C4: one run with a usable snapshot exits 0 and writes; one
run with no usable snapshot exits 1 and does not write. -/
theorem c4_exit_code_contract_witness :
    (runMain (.wellFormed c1root) [exCfg] (fun _ => some exSnap) 7 false 10
        "u").map (fun r => (r.1, r.2.isSome)) = .ok (0, true) ∧
    runMain (.wellFormed c1root) [exCfg] (fun _ => none) 7 false 10 "u"
      = .ok (1, none) :=
  ⟨(c4_exit_code_contract [exCfg] (fun _ => some exSnap) 7 false 10 "u"
      (rfl : parse_existing_items (.wellFormed c1root) = .ok exPrior)
      (by decide)).1 (by decide),
   (c4_exit_code_contract [exCfg] (fun _ => none) 7 false 10 "u"
      (rfl : parse_existing_items (.wellFormed c1root) = .ok exPrior)
      (by decide)).2 rfl⟩

/-- C5: merging is idempotent in non-manual mode: over any prior mapping
satisfying the Feed Store Reader invariant (`goodDict`: distinct keys, each
equal to its entry's identity), applying the merge a second time — with the
same non-manually built summary (same identity, content and timestamp) —
to the first merge's result yields the identical final entry list, and each
identity is present exactly once. -/
theorem c5_merge_idempotent {prior : List (String × FeedItem)}
    {snaps : List StockSnapshot} {now : Nat} {url : String} {M : Nat}
    {out : List FeedItem} (hgd : goodDict prior)
    (h : mergeAndSort prior (build_summary_item snaps now false url) M = .ok out) :
    mergeAndSort (out.map (fun it => (it.guid, it)))
      (build_summary_item snaps now false url) M = .ok out ∧
    (out.map FeedItem.guid).Nodup :=
  ⟨mergeAndSort_idempotent hgd (build_guid_daily _ _ _ _) h,
   mergeAndSort_nodup_guids hgd h⟩

/-- Witness for C5 at a concrete prior mapping and summary. -/
theorem c5_merge_idempotent_witness :
    mergeAndSort (c5out.map (fun it => (it.guid, it)))
      (build_summary_item [exSnap] 7 false "u") 5 = .ok c5out ∧
    (c5out.map FeedItem.guid).Nodup :=
  c5_merge_idempotent (⟨by decide, by decide⟩ : goodDict c5prior)
    (rfl : mergeAndSort c5prior (build_summary_item [exSnap] 7 false "u") 5
      = .ok c5out)

/-- C6: boundedness — the feed list written by any successful run has
length at most the configured positive retention cap `max_items`. -/
theorem c6_output_bounded {f : FeedFile} {configs : List StockConfig}
    {fetch : StockConfig → Option StockSnapshot} {now : Nat} {manual : Bool}
    {M : Nat} {url : String} {c : Nat} {out : List FeedItem} (hM : 0 < M)
    (h : runMain f configs fetch now manual M url = .ok (c, some out)) :
    out.length ≤ M := by
  obtain ⟨prior, -, -, -, -, hm⟩ := runMain_ok_some_elim h
  exact mergeAndSort_length hm

/-- Witness for C6 at a concrete run. -/
theorem c6_output_bounded_witness : 0 < 10 ∧ exOut.length ≤ 10 :=
  ⟨by decide,
   c6_output_bounded (by decide)
     (rfl : runMain (.wellFormed c1root) [exCfg] (fun _ => some exSnap) 7 false 10
       "u" = .ok (0, some exOut))⟩

/-- C7: ordering — the feed list written by any successful run is sorted by
publication timestamp descending: pairwise along the list, a later entry's
parsed key never exceeds an earlier entry's, so an entry with strictly
greater timestamp always precedes one with a smaller timestamp. -/
theorem c7_output_sorted_desc {f : FeedFile} {configs : List StockConfig}
    {fetch : StockConfig → Option StockSnapshot} {now : Nat} {manual : Bool}
    {M : Nat} {url : String} {c : Nat} {out : List FeedItem}
    (h : runMain f configs fetch now manual M url = .ok (c, some out)) :
    out.Pairwise (fun a b => keyD b ≤ keyD a) := by
  obtain ⟨prior, -, -, -, -, hm⟩ := runMain_ok_some_elim h
  exact mergeAndSort_sorted hm

/-- Witness for C7 at a concrete run. -/
theorem c7_output_sorted_desc_witness :
    exOut.Pairwise (fun a b => keyD b ≤ keyD a) :=
  c7_output_sorted_desc
    (rfl : runMain (.wellFormed c1root) [exCfg] (fun _ => some exSnap) 7 false 10
      "u" = .ok (0, some exOut))

/-- C8: identity uniqueness — no two entries of the feed list written by
any successful run share the same identity. -/
theorem c8_identity_unique {f : FeedFile} {configs : List StockConfig}
    {fetch : StockConfig → Option StockSnapshot} {now : Nat} {manual : Bool}
    {M : Nat} {url : String} {c : Nat} {out : List FeedItem}
    (h : runMain f configs fetch now manual M url = .ok (c, some out)) :
    (out.map FeedItem.guid).Nodup := by
  obtain ⟨prior, -, hgd, -, -, hm⟩ := runMain_ok_some_elim h
  exact mergeAndSort_nodup_guids hgd hm

/-- Witness for C8 at a concrete run. -/
theorem c8_identity_unique_witness : (exOut.map FeedItem.guid).Nodup :=
  c8_identity_unique
    (rfl : runMain (.wellFormed c1root) [exCfg] (fun _ => some exSnap) 7 false 10
      "u" = .ok (0, some exOut))

/-- C9: manual-mode non-collision — two manual runs at different
second-resolution instants on the same trade date build entries with
distinct identities, and merging the second into the feed produced by the
first keeps both entries: neither overwrites the other. -/
theorem c9_manual_non_collision (snaps : List StockSnapshot) (t1 t2 : Nat)
    (url : String) (M : Nat) (h12 : t1 ≠ t2) (hM : 2 ≤ M) :
    (build_summary_item snaps t1 true url).guid
      ≠ (build_summary_item snaps t2 true url).guid ∧
    mergeAndSort [] (build_summary_item snaps t1 true url) M
      = .ok [build_summary_item snaps t1 true url] ∧
    mergeAndSort
        [((build_summary_item snaps t1 true url).guid,
          build_summary_item snaps t1 true url)]
        (build_summary_item snaps t2 true url) M
      = .ok (([build_summary_item snaps t1 true url,
          build_summary_item snaps t2 true url]).insertionSort newerFirst) ∧
    build_summary_item snaps t1 true url
      ∈ ([build_summary_item snaps t1 true url,
          build_summary_item snaps t2 true url]).insertionSort newerFirst ∧
    build_summary_item snaps t2 true url
      ∈ ([build_summary_item snaps t1 true url,
          build_summary_item snaps t2 true url]).insertionSort newerFirst := by
  have hneq : (build_summary_item snaps t1 true url).guid
      ≠ (build_summary_item snaps t2 true url).guid := by
    rw [build_guid_manual, build_guid_manual]
    intro he
    exact h12 (manual_guid_inj _ he)
  have hk1 : (sort_key (build_summary_item snaps t1 true url)).isSome = true := by
    simp [sort_key_build]
  have hk2 : (sort_key (build_summary_item snaps t2 true url)).isSome = true := by
    simp [sort_key_build]
  refine ⟨hneq, ?_, ?_, ?_, ?_⟩
  · have h1 : sorted_items [build_summary_item snaps t1 true url] M
        = .ok (([build_summary_item snaps t1 true url].insertionSort
            newerFirst).take M) :=
      sorted_items_ok_of M (by
        intro x hx
        rw [List.mem_singleton.mp hx]
        exact hk1)
    show sorted_items [build_summary_item snaps t1 true url] M
      = .ok [build_summary_item snaps t1 true url]
    rw [h1, List.Sorted.insertionSort_eq (List.sorted_singleton _),
      List.take_of_length_le (by simp; omega)]
  · have hfilter :
        [((build_summary_item snaps t1 true url).guid,
          build_summary_item snaps t1 true url)].filter
            (fun p => startswith p.1 "daily-")
        = [((build_summary_item snaps t1 true url).guid,
            build_summary_item snaps t1 true url)] := by
      apply List.filter_eq_self.mpr
      intro p hp
      rw [List.mem_singleton.mp hp]
      exact build_guid_daily snaps t1 true url
    have hins : dictInsert
        [((build_summary_item snaps t1 true url).guid,
          build_summary_item snaps t1 true url)]
        (build_summary_item snaps t2 true url).guid
        (build_summary_item snaps t2 true url)
        = [((build_summary_item snaps t1 true url).guid,
            build_summary_item snaps t1 true url),
           ((build_summary_item snaps t2 true url).guid,
            build_summary_item snaps t2 true url)] := by
      apply dictInsert_of_forall_ne
      intro p hp he
      rw [List.mem_singleton.mp hp] at he
      exact hneq he
    unfold mergeAndSort
    rw [hfilter, hins]
    show sorted_items
        [build_summary_item snaps t1 true url,
         build_summary_item snaps t2 true url] M = _
    rw [sorted_items_ok_of M (by
      intro x hx
      rcases List.mem_cons.mp hx with h1 | h1
      · rw [h1]
        exact hk1
      · rw [List.mem_singleton.mp h1]
        exact hk2)]
    rw [List.take_of_length_le (by rw [List.length_insertionSort]; simp; omega)]
  · exact (List.mem_insertionSort newerFirst).mpr (by simp)
  · exact (List.mem_insertionSort newerFirst).mpr (by simp)

/-- Witness for C9 at concrete instants 7 and 8. -/
theorem c9_manual_non_collision_witness :
    (build_summary_item [exSnap] 7 true "u").guid
      ≠ (build_summary_item [exSnap] 8 true "u").guid ∧
    mergeAndSort [] (build_summary_item [exSnap] 7 true "u") 2
      = .ok [build_summary_item [exSnap] 7 true "u"] ∧
    mergeAndSort
        [((build_summary_item [exSnap] 7 true "u").guid,
          build_summary_item [exSnap] 7 true "u")]
        (build_summary_item [exSnap] 8 true "u") 2
      = .ok (([build_summary_item [exSnap] 7 true "u",
          build_summary_item [exSnap] 8 true "u"]).insertionSort newerFirst) ∧
    build_summary_item [exSnap] 7 true "u"
      ∈ ([build_summary_item [exSnap] 7 true "u",
          build_summary_item [exSnap] 8 true "u"]).insertionSort newerFirst ∧
    build_summary_item [exSnap] 8 true "u"
      ∈ ([build_summary_item [exSnap] 7 true "u",
          build_summary_item [exSnap] 8 true "u"]).insertionSort newerFirst :=
  c9_manual_non_collision [exSnap] 7 8 "u" 2 (by decide) (by decide)

/-- C10: in the summary entry's counts, a snapshot with change percent
exactly zero is counted as up (`up_count` counts `change_pct >= 0`),
`down_count` is the total minus `up_count` by definition, and for every
non-empty snapshot list the two counts sum to the number of snapshots. -/
theorem c10_up_down_counts (s : StockSnapshot) (snaps : List StockSnapshot)
    (hz : s.change_pct = 0) (hne : snaps ≠ []) :
    up_count (s :: snaps) = up_count snaps + 1 ∧
    down_count snaps = snaps.length - up_count snaps ∧
    up_count snaps + down_count snaps = snaps.length := by
  refine ⟨?_, rfl, ?_⟩
  · unfold up_count
    rw [List.countP_cons]
    simp [hz]
  · show up_count snaps + (snaps.length - up_count snaps) = snaps.length
    exact Nat.add_sub_cancel' (by unfold up_count; exact List.countP_le_length _)

/-- Witness for C10 at a concrete zero-change snapshot. -/
theorem c10_up_down_counts_witness :
    (zSnap.change_pct = 0 ∧ ([exSnap] : List StockSnapshot) ≠ []) ∧
    (up_count (zSnap :: [exSnap]) = up_count [exSnap] + 1 ∧
     down_count [exSnap] = ([exSnap] : List StockSnapshot).length - up_count [exSnap] ∧
     up_count [exSnap] + down_count [exSnap] = ([exSnap] : List StockSnapshot).length) :=
  ⟨⟨rfl, by decide⟩, c10_up_down_counts zSnap [exSnap] rfl (by decide)⟩

end StockRss
